import Mathlib

/-!
Verification of the hl-hip3-deploy price/oracle pipeline.

Shallow embedding of the Python sources:
  - src/compute/stable_fx.py            (resolve_stable_usd_factor)
  - btc_feusd_oracle_loop.py            (_check_price_staleness, run)
  - src/hip3/hip3_update_oracle.py      (_set_oracle_with_retry, _build_price_map_for_dex,
                                         the BTC/QUOTE composition step)
  - src/hip3/hip3_update_oracle_contract.py (identical copies of the retry and
                                         price-map helpers)

Python dictionaries carrying a "status" and a "response" field are embedded as a
structure with two Option String fields (none = key absent).  A call that can
either return a value or raise is embedded as an inductive outcome.  Python
floats are embedded as rationals; where the exact IEEE-754 binary64 semantics of
a literal matters, the rounding is made explicit (see float64OfRat below).
-/

/-! ## String helpers: substring test, as used by the Python `in` operator -/

/-- Does the needle occur at the head of the haystack (character lists)? -/
def headMatch : List Char → List Char → Bool
  | [], _ => true
  | _ :: _, [] => false
  | c :: cs, d :: ds => c == d && headMatch cs ds

/-- Does the needle occur anywhere in the haystack (character lists)? -/
def occursIn (n : List Char) : List Char → Bool
  | [] => headMatch n []
  | d :: ds => headMatch n (d :: ds) || occursIn n ds

/-- Embedding of the Python `needle in haystack` substring test. -/
def strOccursIn (n s : String) : Bool := occursIn n.data s.data

/-- Embedding of Python `str.lower()` (ASCII-sufficient for the phrases used). -/
def strLower (s : String) : String := String.mk (s.data.map Char.toLower)

/-! ## Oracle publish retry loop

Embeds `_set_oracle_with_retry` from src/hip3/hip3_update_oracle.py (lines
50-97); src/hip3/hip3_update_oracle_contract.py (lines 206-253) holds a
character-identical copy, so one embedding covers both. -/

/-- The raw value produced by a non-raising `perp_deploy_set_oracle` call:
either a dict (modelled by its "status" and "response" fields, none = key
absent) or a non-dict value (modelled by its string rendering). -/
inductive RawResult where
  | dict (status : Option String) (response : Option String)
  | nondict (rendered : String)
deriving DecidableEq

/-- One registry publish call either returns a raw value or raises an
exception with message `msg`. -/
inductive CallOutcome where
  | ret (r : RawResult)
  | exc (msg : String)
deriving DecidableEq

/-- The `last_res` dict held by the retry loop: "status" and "response"
fields, none = key absent.  The initial value is the empty dict ⟨none, none⟩. -/
structure ResDict where
  status : Option String
  response : Option String
deriving DecidableEq

/-- `last_res = res if isinstance(res, dict) else {"status": "err", "response": res}`
together with the except branch `last_res = {"status": "err", "response": str(e)}`. -/
def normalizeOutcome : CallOutcome → ResDict
  | .ret (.dict st resp) => ⟨st, resp⟩
  | .ret (.nondict s) => ⟨some "err", some s⟩
  | .exc e => ⟨some "err", some e⟩

/-- `msg = str(last_res.get("response", "")).lower()` -/
def resMsg (r : ResDict) : String := strLower (r.response.getD "")

/-- How one loop iteration classifies the observed response. -/
inductive StepKind where
  | success
  | retryMissingPerp
  | retryRateLimit
  | terminal
deriving DecidableEq

/-- The branch structure of the loop body: status "ok" returns, a message
containing "missing perp" or "oracle price update too often" waits and
retries, anything else returns immediately. -/
def classifyRes (r : ResDict) : StepKind :=
  if r.status = some "ok" then .success
  else if strOccursIn "missing perp" (resMsg r) then .retryMissingPerp
  else if strOccursIn "oracle price update too often" (resMsg r) then .retryRateLimit
  else .terminal

/-- `wait = 2.0 * (i + 1)` seconds, for the missing-perp branch at 0-based
loop index `i`. -/
def missingPerpWait (i : ℕ) : ℚ := 2 * (i + 1)

/-- `wait = 3.0` seconds, for the rate-limit branch (constant). -/
def rateLimitWait : ℚ := 3

/-- Observable trace of one `_set_oracle_with_retry` run: the returned dict,
how many registry calls were made, and the sleep durations in order. -/
structure RetryTrace where
  result : ResDict
  callCount : ℕ
  waits : List ℚ
deriving DecidableEq

/-- The `for i in range(tries)` loop of `_set_oracle_with_retry`, with `i` the
next 0-based index, the remaining iteration count as fuel, and the current
`last_res`.  `calls i` is the outcome of the publish call at index `i`. -/
def retryGo (calls : ℕ → CallOutcome) : ℕ → ℕ → ResDict → RetryTrace
  | i, 0, last => ⟨last, i, []⟩
  | i, fuel + 1, _ =>
    let lr := normalizeOutcome (calls i)
    match classifyRes lr with
    | .success => ⟨lr, i + 1, []⟩
    | .retryMissingPerp =>
      let t := retryGo calls (i + 1) fuel lr
      ⟨t.result, t.callCount, missingPerpWait i :: t.waits⟩
    | .retryRateLimit =>
      let t := retryGo calls (i + 1) fuel lr
      ⟨t.result, t.callCount, rateLimitWait :: t.waits⟩
    | .terminal => ⟨lr, i + 1, []⟩

/-- `_set_oracle_with_retry(exchange, dex, mapping, tries)`: run the loop from
index 0 with `last_res = {}` and return the final `last_res`. -/
def setOracleWithRetry (calls : ℕ → CallOutcome) (tries : ℕ) : RetryTrace :=
  retryGo calls 0 tries ⟨none, none⟩

/-! ## FX resolution

Embeds `resolve_stable_usd_factor` from src/compute/stable_fx.py (lines 20-58).
The two price lookups it calls (`get_spot_mid`, `get_pair_mid_from_dexscreener`)
are external network reads; they are embedded as oracle functions returning
`Option ℚ`, with `none` modelling a raised exception.  The address map
`evm_addresses` is an optional association list (`none` = the argument is
`None`/falsy in Python). -/

/-- The external price sources consulted by the resolver. -/
structure FxSources where
  spotMid : String → String → Option ℚ
  dexMid : String → String → Option ℚ

/-- Which branch of the resolver produced the factor (observable control flow:
A = HL Spot direct market, B = DexScreener secondary market, C = peg). -/
inductive ResolvedVia where
  | directMarket
  | secondaryMarket
  | pegFallback
deriving DecidableEq

/-- The `for q in preferred_quotes` loop: return the first spot lookup that
does not raise. -/
def firstSpot (src : FxSources) (symbol : String) : List String → Option ℚ
  | [] => none
  | q :: qs =>
    match src.spotMid symbol q with
    | some v => some v
    | none => firstSpot src symbol qs

/-- `resolve_stable_usd_factor(info, symbol, preferred_quotes, evm_addresses,
evm_usd_reference)`: try HL Spot for each preferred quote, then DexScreener if
both addresses are configured, then peg 1.0.  The function is total: every
input yields a factor. -/
def resolveStableUsdFactor (src : FxSources) (symbol : String)
    (preferredQuotes : List String) (evmAddresses : Option (List (String × String)))
    (evmUsdReference : String) : ℚ × ResolvedVia :=
  match firstSpot src symbol preferredQuotes with
  | some v => (v, .directMarket)
  | none =>
    match evmAddresses with
    | none => (1, .pegFallback)
    | some addrs =>
      match addrs.lookup symbol, addrs.lookup evmUsdReference with
      | some symAddr, some refAddr =>
        match src.dexMid symAddr refAddr with
        | some v => (v, .secondaryMarket)
        | none => (1, .pegFallback)
      | _, _ => (1, .pegFallback)

/-! ## Staleness check

Embeds `BTCFeusdOracleLoop._check_price_staleness` from
btc_feusd_oracle_loop.py (lines 110-118). -/

/-- The inner "BTC-FEUSD" dict of the price data: an "error" key (none = key
absent) and an "age_minutes" key (none = key absent). -/
structure BtcPairData where
  error : Option String
  ageMinutes : Option ℤ
deriving DecidableEq

/-- `_check_price_staleness(price_data)`: `price_data.get("BTC-FEUSD", {})`,
short-circuit to stale on an "error" key, else compare
`btc_data.get('age_minutes', 999)` against `self.max_price_age`. -/
def checkPriceStaleness (priceData : Option BtcPairData) (maxPriceAge : ℤ) : Bool :=
  let btcData := priceData.getD ⟨none, none⟩
  if btcData.error.isSome then true
  else decide (btcData.ageMinutes.getD 999 > maxPriceAge)

/-! ## Price composition

Embeds the composition step of `update_oracle_for_dex` in
src/hip3/hip3_update_oracle.py (lines 181-188):
`fx = fx_cache.get(quote) or 1.0; prices[coin] = btc_usd / fx`.
The Python `or` falls through to 1.0 both when the cache lookup returns `None`
and when the factor is the falsy float 0.0. -/

def composeBtcPrice (btcUsd : ℚ) (fxLookup : Option ℚ) : ℚ :=
  let fx : ℚ :=
    match fxLookup with
    | none => 1
    | some v => if v = 0 then 1 else v
  btcUsd / fx

/-! ## Publish mapping and 12-decimal serialization

Embeds `_build_price_map_for_dex` from src/hip3/hip3_update_oracle.py (lines
34-36); src/hip3/hip3_update_oracle_contract.py (lines 190-192) holds an
identical copy.  The serialized value is the Python f-string
`f"{float(px):.12f}"`, i.e. the exact binary64 value of `px` rounded to 12
decimal places (round half to even) and zero-padded to exactly 12 fractional
digits.  Because the prices arrive as Python floats, the embedding makes the
decimal-literal-to-binary64 rounding explicit via `float64OfRat`. -/

/-- Round a rational to the nearest integer, ties to even (the rounding used
both by binary64 arithmetic and by float formatting). -/
def roundHalfEven (x : ℚ) : ℤ :=
  let n := ⌊x⌋
  let r := x - n
  if r < 1 / 2 then n
  else if r > 1 / 2 then n + 1
  else if n % 2 = 0 then n else n + 1

/-- The IEEE-754 binary64 value nearest to a rational `x` (ties to even),
modelling how a Python source literal or `float(px)` stores `x`.  Defined for
the normal positive range `1 ≤ x` that covers every price in this pipeline;
outside it the embedding returns `x` unchanged (unused here). -/
def float64OfRat (x : ℚ) : ℚ :=
  if x < 1 then x
  else
    let k := Nat.log2 ⌊x⌋.toNat
    if k ≤ 52 then
      let s : ℚ := 2 ^ (52 - k)
      (roundHalfEven (x * s) : ℚ) / s
    else
      let s : ℚ := 2 ^ (k - 52)
      (roundHalfEven (x / s) : ℚ) * s

/-- Zero-pad the decimal rendering of a fractional part to 12 digits. -/
def pad12 (n : ℕ) : String :=
  let s := toString n
  String.mk (List.replicate (12 - s.length) '0') ++ s

/-- `f"{x:.12f}"` for a nonnegative binary64 value `x` held as an exact
rational: round `x * 10^12` half-to-even, then print as `int.frac12`. -/
def format12f (x : ℚ) : String :=
  let n := roundHalfEven (x * 10 ^ 12)
  toString (n / 10 ^ 12) ++ "." ++ pad12 (n % 10 ^ 12).natAbs

/-- `_build_price_map_for_dex(dex, coin_to_price)`: each coin maps to the key
`f"{dex}:{coin}"` and the value `f"{float(px):.12f}"`. -/
def buildPriceMapForDex (dex : String) (coinToPrice : List (String × ℚ)) :
    List (String × String) :=
  coinToPrice.map fun p => (dex ++ ":" ++ p.1, format12f p.2)

/-! ## Update loop

Embeds the outcome handling of `BTCFeusdOracleLoop.run` from
btc_feusd_oracle_loop.py (lines 200-266), driven by the per-cycle outcome of
`_update_oracle`. -/

/-- The status of one `_update_oracle` cycle. -/
inductive Outcome where
  | success
  | noop
  | stale
  | error
deriving DecidableEq

/-- The loop counters mutated once per cycle. -/
structure LoopState where
  updateCount : ℕ
  errorCount : ℕ
  consecutiveErrors : ℕ
deriving DecidableEq

/-- `self.max_consecutive_errors = 5` -/
def maxConsecutiveErrors : ℕ := 5

/-- One cycle of counter updates: `update_count += 1`, then the per-status
branch (success and noop reset `consecutive_errors`; stale and error increment
it together with `error_count`). -/
def stepOutcome (s : LoopState) (o : Outcome) : LoopState :=
  let s1 : LoopState := { s with updateCount := s.updateCount + 1 }
  match o with
  | .success => { s1 with consecutiveErrors := 0 }
  | .noop => { s1 with consecutiveErrors := 0 }
  | .stale =>
    { s1 with consecutiveErrors := s1.consecutiveErrors + 1,
              errorCount := s1.errorCount + 1 }
  | .error =>
    { s1 with consecutiveErrors := s1.consecutiveErrors + 1,
              errorCount := s1.errorCount + 1 }

/-- The `while self.running` loop fed a finite stream of cycle outcomes:
after each cycle, break when `consecutive_errors >= max_consecutive_errors`.
Returns the final state and the number of cycles executed. -/
def runLoop (s : LoopState) : List Outcome → LoopState × ℕ
  | [] => (s, 0)
  | o :: rest =>
    let s1 := stepOutcome s o
    if maxConsecutiveErrors ≤ s1.consecutiveErrors then (s1, 1)
    else
      let t := runLoop s1 rest
      (t.1, t.2 + 1)

/-- Counters at loop start. -/
def initialLoopState : LoopState := ⟨0, 0, 0⟩

/-! ## Concrete call sequences and sources used in witness runs -/

/-- All external sources fail (raise) on every lookup. -/
def c1Src : FxSources := ⟨fun _ _ => none, fun _ _ => none⟩

/-- Every registry call returns an error dict carrying the propagation-lag
phrase in mixed case (lowered by the classifier). -/
def c3Calls : ℕ → CallOutcome :=
  fun _ => .ret (.dict (some "err") (some "Oracle update failed: missing perp btcx:BTC-FEUSD"))

/-- Every registry call returns the propagation-lag phrase. -/
def c4mpCalls : ℕ → CallOutcome :=
  fun _ => .ret (.dict (some "err") (some "missing perp btcx:BTC-FEUSD"))

/-- Every registry call returns the rate-limit phrase. -/
def c4rlCalls : ℕ → CallOutcome :=
  fun _ => .ret (.dict (some "err") (some "oracle price update too often"))

/-- Every registry call raises a plain network-level exception whose text
matches no transient phrase. -/
def c5Calls : ℕ → CallOutcome := fun _ => .exc "connection timeout"

/-- Every registry call raises an exception whose text happens to carry the
propagation-lag phrase. -/
def c5mpCalls : ℕ → CallOutcome := fun _ => .exc "exception: missing perp not ready"

/-! ## Unfolding lemmas for the retry loop -/

theorem retryGo_zero (calls : ℕ → CallOutcome) (i : ℕ) (last : ResDict) :
    retryGo calls i 0 last = ⟨last, i, []⟩ := rfl

theorem retryGo_success (calls : ℕ → CallOutcome) (i fuel : ℕ) (last : ResDict)
    (h : classifyRes (normalizeOutcome (calls i)) = .success) :
    retryGo calls i (fuel + 1) last = ⟨normalizeOutcome (calls i), i + 1, []⟩ := by
  simp only [retryGo, h]

theorem retryGo_missingPerp (calls : ℕ → CallOutcome) (i fuel : ℕ) (last : ResDict)
    (h : classifyRes (normalizeOutcome (calls i)) = .retryMissingPerp) :
    retryGo calls i (fuel + 1) last =
      ⟨(retryGo calls (i + 1) fuel (normalizeOutcome (calls i))).result,
       (retryGo calls (i + 1) fuel (normalizeOutcome (calls i))).callCount,
       missingPerpWait i :: (retryGo calls (i + 1) fuel (normalizeOutcome (calls i))).waits⟩ := by
  simp only [retryGo, h]

theorem retryGo_rateLimit (calls : ℕ → CallOutcome) (i fuel : ℕ) (last : ResDict)
    (h : classifyRes (normalizeOutcome (calls i)) = .retryRateLimit) :
    retryGo calls i (fuel + 1) last =
      ⟨(retryGo calls (i + 1) fuel (normalizeOutcome (calls i))).result,
       (retryGo calls (i + 1) fuel (normalizeOutcome (calls i))).callCount,
       rateLimitWait :: (retryGo calls (i + 1) fuel (normalizeOutcome (calls i))).waits⟩ := by
  simp only [retryGo, h]

theorem retryGo_terminal (calls : ℕ → CallOutcome) (i fuel : ℕ) (last : ResDict)
    (h : classifyRes (normalizeOutcome (calls i)) = .terminal) :
    retryGo calls i (fuel + 1) last = ⟨normalizeOutcome (calls i), i + 1, []⟩ := by
  simp only [retryGo, h]

/-! ## Helper lemmas about the retry loop -/

/-- The loop never reports fewer calls than its starting index. -/
theorem retryGo_le_callCount (calls : ℕ → CallOutcome) :
    ∀ (fuel i : ℕ) (last : ResDict), i ≤ (retryGo calls i fuel last).callCount := by
  intro fuel
  induction fuel with
  | zero => intro i last; rw [retryGo_zero]
  | succ n ih =>
    intro i last
    cases hc : classifyRes (normalizeOutcome (calls i)) with
    | success => rw [retryGo_success calls i n last hc]; exact Nat.le_succ i
    | retryMissingPerp =>
      rw [retryGo_missingPerp calls i n last hc]
      exact Nat.le_of_succ_le (ih (i + 1) (normalizeOutcome (calls i)))
    | retryRateLimit =>
      rw [retryGo_rateLimit calls i n last hc]
      exact Nat.le_of_succ_le (ih (i + 1) (normalizeOutcome (calls i)))
    | terminal => rw [retryGo_terminal calls i n last hc]; exact Nat.le_succ i

/-- With at least one iteration of fuel, at least one call is made. -/
theorem retryGo_succ_le_callCount (calls : ℕ → CallOutcome) (fuel i : ℕ) (last : ResDict) :
    i + 1 ≤ (retryGo calls i (fuel + 1) last).callCount := by
  cases hc : classifyRes (normalizeOutcome (calls i)) with
  | success => rw [retryGo_success calls i fuel last hc]
  | retryMissingPerp =>
    rw [retryGo_missingPerp calls i fuel last hc]
    exact retryGo_le_callCount calls fuel (i + 1) (normalizeOutcome (calls i))
  | retryRateLimit =>
    rw [retryGo_rateLimit calls i fuel last hc]
    exact retryGo_le_callCount calls fuel (i + 1) (normalizeOutcome (calls i))
  | terminal => rw [retryGo_terminal calls i fuel last hc]

/-- If every remaining call classifies as the missing-perp transient, the loop
consumes all its fuel, returns the last observed response, and sleeps the
linearly growing propagation-lag waits. -/
theorem retryGo_allMissingPerp (calls : ℕ → CallOutcome) :
    ∀ (fuel i : ℕ) (last : ResDict),
      (∀ j, j < fuel → classifyRes (normalizeOutcome (calls (i + j))) = .retryMissingPerp) →
      (retryGo calls i fuel last).callCount = i + fuel ∧
      (retryGo calls i fuel last).result =
        (if fuel = 0 then last else normalizeOutcome (calls (i + fuel - 1))) ∧
      (retryGo calls i fuel last).waits = (List.range fuel).map fun j => missingPerpWait (i + j) := by
  intro fuel
  induction fuel with
  | zero => intro i last _; rw [retryGo_zero]; simp
  | succ n ih =>
    intro i last h
    have h0 : classifyRes (normalizeOutcome (calls i)) = .retryMissingPerp := by
      have := h 0 (Nat.succ_pos n); simpa using this
    rw [retryGo_missingPerp calls i n last h0]
    have hrest : ∀ j, j < n →
        classifyRes (normalizeOutcome (calls (i + 1 + j))) = .retryMissingPerp := by
      intro j hj
      have := h (j + 1) (by omega)
      simpa [Nat.add_assoc, Nat.add_comm 1 j] using this
    obtain ⟨hcc, hres, hwaits⟩ := ih (i + 1) (normalizeOutcome (calls i)) hrest
    refine ⟨by simpa [Nat.add_assoc, Nat.add_comm 1 n] using hcc, ?_, ?_⟩
    · rcases n with _ | m
      · simp [hres]
      · rw [hres]
        have : i + 1 + (m + 1) - 1 = i + (m + 1 + 1) - 1 := by omega
        simp [this]
    · rw [hwaits, List.range_succ_eq_map]
      simp only [List.map_cons, List.map_map, Nat.add_zero]
      refine congrArg (missingPerpWait i :: ·) ?_
      refine List.map_congr_left ?_
      intro j _
      simp [Function.comp]
      congr 1
      omega

/-- If every remaining call classifies as the rate-limit transient, the loop
consumes all its fuel, returns the last observed response, and sleeps the
constant rate-limit wait each time. -/
theorem retryGo_allRateLimit (calls : ℕ → CallOutcome) :
    ∀ (fuel i : ℕ) (last : ResDict),
      (∀ j, j < fuel → classifyRes (normalizeOutcome (calls (i + j))) = .retryRateLimit) →
      (retryGo calls i fuel last).callCount = i + fuel ∧
      (retryGo calls i fuel last).waits = List.replicate fuel rateLimitWait := by
  intro fuel
  induction fuel with
  | zero => intro i last _; rw [retryGo_zero]; simp
  | succ n ih =>
    intro i last h
    have h0 : classifyRes (normalizeOutcome (calls i)) = .retryRateLimit := by
      have := h 0 (Nat.succ_pos n); simpa using this
    rw [retryGo_rateLimit calls i n last h0]
    have hrest : ∀ j, j < n →
        classifyRes (normalizeOutcome (calls (i + 1 + j))) = .retryRateLimit := by
      intro j hj
      have := h (j + 1) (by omega)
      simpa [Nat.add_assoc, Nat.add_comm 1 j] using this
    obtain ⟨hcc, hwaits⟩ := ih (i + 1) (normalizeOutcome (calls i)) hrest
    exact ⟨by simpa [Nat.add_assoc, Nat.add_comm 1 n] using hcc,
      by rw [hwaits]; simp [List.replicate]⟩

/-- Whatever the call outcomes, the returned dict is either the initial
`last_res` or the normalization of one of the observed outcomes. -/
theorem retryGo_result_cases (calls : ℕ → CallOutcome) :
    ∀ (fuel i : ℕ) (last : ResDict),
      (retryGo calls i fuel last).result = last ∨
      ∃ j, i ≤ j ∧ j < i + fuel ∧
        (retryGo calls i fuel last).result = normalizeOutcome (calls j) := by
  intro fuel
  induction fuel with
  | zero => intro i last; rw [retryGo_zero]; exact Or.inl rfl
  | succ n ih =>
    intro i last
    cases hc : classifyRes (normalizeOutcome (calls i)) with
    | success =>
      rw [retryGo_success calls i n last hc]
      exact Or.inr ⟨i, Nat.le_refl i, by omega, rfl⟩
    | retryMissingPerp =>
      rw [retryGo_missingPerp calls i n last hc]
      rcases ih (i + 1) (normalizeOutcome (calls i)) with h | ⟨j, hj1, hj2, hj3⟩
      · exact Or.inr ⟨i, Nat.le_refl i, by omega, h⟩
      · exact Or.inr ⟨j, by omega, by omega, hj3⟩
    | retryRateLimit =>
      rw [retryGo_rateLimit calls i n last hc]
      rcases ih (i + 1) (normalizeOutcome (calls i)) with h | ⟨j, hj1, hj2, hj3⟩
      · exact Or.inr ⟨i, Nat.le_refl i, by omega, h⟩
      · exact Or.inr ⟨j, by omega, by omega, hj3⟩
    | terminal =>
      rw [retryGo_terminal calls i n last hc]
      exact Or.inr ⟨i, Nat.le_refl i, by omega, rfl⟩

/-- A response that is not status "ok" and whose message carries the
propagation-lag phrase classifies as the missing-perp transient. -/
theorem classifyRes_missingPerp {r : ResDict} (h1 : ¬ r.status = some "ok")
    (h2 : strOccursIn "missing perp" (resMsg r) = true) :
    classifyRes r = .retryMissingPerp := by
  unfold classifyRes
  rw [if_neg h1, if_pos h2]

/-! ## Claim theorems -/

/-- C1: resolve_stable_usd_factor never raises; on any input where every
preferred direct-market spot lookup and the secondary-market lookup fail
(raise), it returns the peg factor 1.0 via the peg-fallback branch instead of
propagating an error.  (Totality is by construction: the embedding returns a
factor for every input.) -/
theorem fx_all_sources_fail_returns_peg (src : FxSources) (symbol : String)
    (quotes : List String) (addrs : Option (List (String × String))) (ref : String)
    (hspot : ∀ q ∈ quotes, src.spotMid symbol q = none)
    (hdex : ∀ a b, src.dexMid a b = none) :
    resolveStableUsdFactor src symbol quotes addrs ref = (1, .pegFallback) := by
  have hfs : firstSpot src symbol quotes = none := by
    induction quotes with
    | nil => rfl
    | cons q qs ih =>
      have hq : src.spotMid symbol q = none := hspot q (List.mem_cons_self q qs)
      have ihh := ih fun p hp => hspot p (List.mem_cons_of_mem q hp)
      simp [firstSpot, hq, ihh]
  cases addrs with
  | none => simp [resolveStableUsdFactor, hfs]
  | some l =>
    cases h1 : List.lookup symbol l with
    | none => simp [resolveStableUsdFactor, hfs, h1]
    | some symAddr =>
      cases h2 : List.lookup ref l with
      | none => simp [resolveStableUsdFactor, hfs, h1, h2]
      | some refAddr => simp [resolveStableUsdFactor, hfs, h1, h2, hdex]

theorem fx_all_sources_fail_returns_peg_witness :
    resolveStableUsdFactor c1Src "FEUSD" ["USDT0", "USDHL", "FEUSD"]
      (some [("FEUSD", "0xfe"), ("USDC", "0xuc")]) "USDC" = (1, .pegFallback) :=
  fx_all_sources_fail_returns_peg c1Src "FEUSD" _ _ _
    (fun _ _ => rfl) (fun _ _ => rfl)

/-- C2: without an embedded error, _check_price_staleness reports stale
exactly when the age strictly exceeds the configured maximum (equality is
fresh); with an embedded error it reports stale regardless of age. -/
theorem staleness_strict_boundary :
    (∀ (pd : BtcPairData) (maxAge a : ℤ), pd.error = none → pd.ageMinutes = some a →
      (checkPriceStaleness (some pd) maxAge = true ↔ a > maxAge)) ∧
    (∀ (pd : BtcPairData) (maxAge : ℤ), pd.error.isSome →
      checkPriceStaleness (some pd) maxAge = true) := by
  constructor
  · intro pd maxAge a herr hage
    simp [checkPriceStaleness, herr, hage]
  · intro pd maxAge herr
    simp [checkPriceStaleness, herr]

theorem staleness_strict_boundary_witness :
    checkPriceStaleness (some ⟨none, some 30⟩) 30 = false ∧
    checkPriceStaleness (some ⟨none, some 31⟩) 30 = true ∧
    checkPriceStaleness (some ⟨some "boom", some 0⟩) 30 = true := by
  refine ⟨?_, ?_, ?_⟩
  · have h := staleness_strict_boundary.1 ⟨none, some 30⟩ 30 30 rfl rfl
    simp only [gt_iff_lt, lt_self_iff_false, iff_false] at h
    exact Bool.not_eq_true _ |>.mp h
  · exact (staleness_strict_boundary.1 ⟨none, some 31⟩ 30 31 rfl rfl).mpr (by norm_num)
  · exact staleness_strict_boundary.2 ⟨some "boom", some 0⟩ 30 rfl

/-- C9: with no embedded error and a missing age field, the staleness check
substitutes the default age 999, so the quote is stale for every configured
maximum age below 999 minutes. -/
theorem staleness_missing_age_default (pd : BtcPairData) (maxAge : ℤ)
    (herr : pd.error = none) (hage : pd.ageMinutes = none) (hmax : maxAge < 999) :
    checkPriceStaleness (some pd) maxAge = true := by
  simp [checkPriceStaleness, herr, hage, hmax]

theorem staleness_missing_age_default_witness :
    checkPriceStaleness (some ⟨none, none⟩) 30 = true :=
  staleness_missing_age_default ⟨none, none⟩ 30 rfl rfl (by norm_num)

/-- C3: if every registry call yields a non-ok response whose body carries
"missing perp", the publisher with 5 attempts makes exactly 5 calls and
returns the 5th observed response unchanged. -/
theorem missing_perp_exhausts_five_attempts (calls : ℕ → CallOutcome)
    (h : ∀ i, i < 5 → ¬ (normalizeOutcome (calls i)).status = some "ok" ∧
      strOccursIn "missing perp" (resMsg (normalizeOutcome (calls i))) = true) :
    (setOracleWithRetry calls 5).callCount = 5 ∧
    (setOracleWithRetry calls 5).result = normalizeOutcome (calls 4) := by
  have hmp : ∀ j, j < 5 → classifyRes (normalizeOutcome (calls (0 + j))) = .retryMissingPerp := by
    intro j hj
    have hh := h j hj
    simpa using classifyRes_missingPerp (by simpa using hh.1) (by simpa using hh.2)
  obtain ⟨hcc, hres, _⟩ := retryGo_allMissingPerp calls 5 0 ⟨none, none⟩ hmp
  refine ⟨by simpa using hcc, ?_⟩
  rw [setOracleWithRetry] at *
  rw [hres]
  norm_num

theorem missing_perp_exhausts_five_attempts_witness :
    (setOracleWithRetry c3Calls 5).callCount = 5 ∧
    (setOracleWithRetry c3Calls 5).result = normalizeOutcome (c3Calls 4) :=
  missing_perp_exhausts_five_attempts c3Calls (by decide)

/-- C4 counterexample: after the first attempt (loop index 0) the
propagation-lag wait is 2.0 s while the rate-limit wait is 3.0 s, so the
propagation-lag wait is NOT longer than the rate-limit wait at every attempt
number; the rate-limit wait is moreover constant, not linear. -/
theorem wait_policy_counterexample :
    missingPerpWait 0 = 2 ∧ rateLimitWait = 3 ∧ ¬ rateLimitWait < missingPerpWait 0 := by
  norm_num [missingPerpWait, rateLimitWait]

/-- C4 (amended): the propagation-lag wait scales linearly with the attempt
number (2·(i+1) seconds after 0-based attempt i, as the waits of a full
missing-perp run show), while the rate-limit wait is the constant 3 seconds
(constant over a full rate-limited run); the propagation-lag wait exceeds the
rate-limit wait exactly from the second attempt onward. -/
theorem wait_policy_linear_vs_constant :
    (∀ (calls : ℕ → CallOutcome) (tries : ℕ),
      (∀ j, j < tries → classifyRes (normalizeOutcome (calls j)) = .retryMissingPerp) →
      (setOracleWithRetry calls tries).waits = (List.range tries).map missingPerpWait) ∧
    (∀ (calls : ℕ → CallOutcome) (tries : ℕ),
      (∀ j, j < tries → classifyRes (normalizeOutcome (calls j)) = .retryRateLimit) →
      (setOracleWithRetry calls tries).waits = List.replicate tries rateLimitWait) ∧
    (∀ i : ℕ, missingPerpWait i = 2 * (i + 1)) ∧
    rateLimitWait = 3 ∧
    (∀ i : ℕ, rateLimitWait < missingPerpWait i ↔ 1 ≤ i) := by
  refine ⟨?_, ?_, fun i => rfl, rfl, ?_⟩
  · intro calls tries h
    obtain ⟨_, _, hw⟩ := retryGo_allMissingPerp calls tries 0 ⟨none, none⟩ (by simpa using h)
    rw [setOracleWithRetry, hw]
    simp
  · intro calls tries h
    obtain ⟨_, hw⟩ := retryGo_allRateLimit calls tries 0 ⟨none, none⟩ (by simpa using h)
    rw [setOracleWithRetry, hw]
  · intro i
    constructor
    · intro hlt
      by_contra hi
      have : i = 0 := by omega
      subst this
      norm_num [missingPerpWait, rateLimitWait] at hlt
    · intro hi
      have h2 : (2 : ℚ) * (i + 1) ≥ 2 * 2 := by
        have : (1 : ℚ) ≤ (i : ℚ) := by exact_mod_cast hi
        nlinarith
      simp only [missingPerpWait, rateLimitWait]
      nlinarith

theorem wait_policy_linear_vs_constant_witness :
    (setOracleWithRetry c4mpCalls 5).waits = [2, 4, 6, 8, 10] ∧
    (setOracleWithRetry c4rlCalls 5).waits = [3, 3, 3, 3, 3] := by
  constructor
  · rw [wait_policy_linear_vs_constant.1 c4mpCalls 5 (by decide)]
    norm_num [List.range_succ, missingPerpWait]
  · rw [wait_policy_linear_vs_constant.2.1 c4rlCalls 5 (by decide)]
    norm_num [List.replicate, rateLimitWait]

/-- C5 counterexample: a registry publish call that raises a plain
network-level exception ("connection timeout") is NOT retried: with 5 attempts
of budget the publisher makes exactly one call and returns the wrapped
exception immediately, because the exception text matches no transient
phrase. -/
theorem network_exception_not_retried_counterexample :
    (setOracleWithRetry c5Calls 5).callCount = 1 ∧
    ¬ 2 ≤ (setOracleWithRetry c5Calls 5).callCount ∧
    (setOracleWithRetry c5Calls 5).result = ⟨some "err", some "connection timeout"⟩ := by
  refine ⟨?_, ?_, ?_⟩ <;> decide

/-- C5 (amended): an exception from the publish call is wrapped as
{"status": "err", "response": str(e)} and then classified by its message text
exactly like a returned response: if the message carries a transient phrase the
exception consumes one attempt and is followed by another attempt (when
attempts remain), otherwise the publisher terminates immediately after that
single call. -/
theorem network_exception_classified_by_message (calls : ℕ → CallOutcome)
    (e : String) (tries : ℕ) (hc : calls 0 = .exc e) (ht : 2 ≤ tries) :
    normalizeOutcome (calls 0) = ⟨some "err", some e⟩ ∧
    (classifyRes ⟨some "err", some e⟩ = .retryMissingPerp →
      2 ≤ (setOracleWithRetry calls tries).callCount) ∧
    (classifyRes ⟨some "err", some e⟩ = .retryRateLimit →
      2 ≤ (setOracleWithRetry calls tries).callCount) ∧
    (classifyRes ⟨some "err", some e⟩ = .terminal →
      (setOracleWithRetry calls tries).callCount = 1 ∧
      (setOracleWithRetry calls tries).result = ⟨some "err", some e⟩) := by
  have hn : normalizeOutcome (calls 0) = ⟨some "err", some e⟩ := by
    rw [hc]; rfl
  obtain ⟨f, rfl⟩ : ∃ f, tries = f + 1 + 1 := ⟨tries - 2, by omega⟩
  refine ⟨hn, ?_, ?_, ?_⟩
  · intro hcl
    rw [setOracleWithRetry, retryGo_missingPerp calls 0 (f + 1) _ (by rw [hn]; exact hcl)]
    exact retryGo_succ_le_callCount calls f 1 (normalizeOutcome (calls 0))
  · intro hcl
    rw [setOracleWithRetry, retryGo_rateLimit calls 0 (f + 1) _ (by rw [hn]; exact hcl)]
    exact retryGo_succ_le_callCount calls f 1 (normalizeOutcome (calls 0))
  · intro hcl
    rw [setOracleWithRetry, retryGo_terminal calls 0 (f + 1) _ (by rw [hn]; exact hcl)]
    exact ⟨rfl, hn⟩

/-- Concrete run of the amended C5: a "missing perp" exception is retried, a
"connection timeout" exception terminates after one call. -/
theorem network_exception_classified_by_message_witness :
    2 ≤ (setOracleWithRetry c5mpCalls 5).callCount ∧
    (setOracleWithRetry c5Calls 5).callCount = 1 := by
  constructor
  · exact (network_exception_classified_by_message c5mpCalls
      "exception: missing perp not ready" 5 rfl (by norm_num)).2.1 (by decide)
  · exact ((network_exception_classified_by_message c5Calls
      "connection timeout" 5 rfl (by norm_num)).2.2.2 (by decide)).1

/-- C6: only success and noop outcomes reset the consecutive-error counter
(stale and error increment it), and from a fresh loop five consecutive error
outcomes halt the loop after exactly 5 cycles with the final consecutive-error
count equal to 5, whatever outcomes would have followed. -/
theorem loop_halts_after_five_consecutive_errors :
    (∀ s : LoopState,
      (stepOutcome s .success).consecutiveErrors = 0 ∧
      (stepOutcome s .noop).consecutiveErrors = 0 ∧
      (stepOutcome s .stale).consecutiveErrors = s.consecutiveErrors + 1 ∧
      (stepOutcome s .error).consecutiveErrors = s.consecutiveErrors + 1) ∧
    (∀ rest : List Outcome,
      (runLoop initialLoopState (List.replicate 5 .error ++ rest)).2 = 5 ∧
      (runLoop initialLoopState (List.replicate 5 .error ++ rest)).1.consecutiveErrors = 5) := by
  constructor
  · intro s
    refine ⟨rfl, rfl, rfl, rfl⟩
  · intro rest
    simp only [show List.replicate 5 Outcome.error = [.error, .error, .error, .error, .error] from rfl,
      List.cons_append, List.nil_append]
    simp [runLoop, stepOutcome, maxConsecutiveErrors, initialLoopState]

/-- C7: the composition step computes price = baseUsdPrice / fxFactor when the
factor is nonzero and substitutes 1.0 when the factor is zero (or the cache
lookup returned None); in particular 100000 with factor 0.5 gives 200000 and
100000 with factor 0 gives 100000. -/
theorem compose_divides_and_substitutes :
    (∀ b fx : ℚ, fx ≠ 0 → composeBtcPrice b (some fx) = b / fx) ∧
    (∀ b : ℚ, composeBtcPrice b (some 0) = b) ∧
    (∀ b : ℚ, composeBtcPrice b none = b) ∧
    composeBtcPrice 100000 (some (1 / 2)) = 200000 ∧
    composeBtcPrice 100000 (some 0) = 100000 := by
  refine ⟨?_, ?_, ?_, ?_, ?_⟩
  · intro b fx hfx
    simp [composeBtcPrice, hfx]
  · intro b
    simp [composeBtcPrice]
  · intro b
    simp [composeBtcPrice]
  · norm_num [composeBtcPrice]
  · norm_num [composeBtcPrice]

theorem compose_divides_and_substitutes_witness :
    composeBtcPrice 12 (some 4) = 3 := by
  rw [compose_divides_and_substitutes.1 12 4 (by norm_num)]
  norm_num

/-- C10: the publish-with-retry helper is total at its boundary.  In this
embedding it returns a `ResDict` (the model of a Python dict with "status" and
"response" fields) for every sequence of responses and exceptions, so it never
raises; a non-dict response or an exception is wrapped as
{"status": "err", "response": ...}; and the returned dict is always either the
initial empty dict (only reachable with a zero attempt budget) or the
normalization of one of the observed call outcomes. -/
theorem set_oracle_with_retry_total :
    (∀ s : String, normalizeOutcome (.ret (.nondict s)) = ⟨some "err", some s⟩) ∧
    (∀ e : String, normalizeOutcome (.exc e) = ⟨some "err", some e⟩) ∧
    (∀ (calls : ℕ → CallOutcome) (tries : ℕ),
      (setOracleWithRetry calls tries).result = ⟨none, none⟩ ∨
      ∃ j, j < tries ∧ (setOracleWithRetry calls tries).result = normalizeOutcome (calls j)) := by
  refine ⟨fun s => rfl, fun e => rfl, ?_⟩
  intro calls tries
  rcases retryGo_result_cases calls tries 0 ⟨none, none⟩ with h | ⟨j, _, hj2, hj3⟩
  · exact Or.inl h
  · exact Or.inr ⟨j, by omega, hj3⟩

/-- Evaluation helper: the binary64 value stored for the decimal literal
65234.123456789012 is 8965709658564329 / 2^37 (the literal itself is not
representable; the nearest double is about 65234.1234567890132894). -/
theorem btc_price_float64_eval :
    float64OfRat ((65234123456789012 : ℚ) / 10 ^ 12) = 8965709658564329 / 2 ^ 37 := by
  have hx1 : ¬ ((65234123456789012 : ℚ) / 10 ^ 12 < 1) := by norm_num
  have hfl : (⌊(65234123456789012 : ℚ) / 10 ^ 12⌋ : ℤ) = 65234 := by norm_num
  have hlog : Nat.log2 65234 = 15 := by norm_num [Nat.log2]
  have hround : roundHalfEven ((65234123456789012 : ℚ) / 10 ^ 12 * 2 ^ 37) = 8965709658564329 := by
    have hfl2 : (⌊(65234123456789012 : ℚ) / 10 ^ 12 * 2 ^ 37⌋ : ℤ) = 8965709658564328 := by
      norm_num
    have hlt : ¬ ((65234123456789012 : ℚ) / 10 ^ 12 * 2 ^ 37 - (8965709658564328 : ℤ) < 1 / 2) := by
      norm_num
    have hgt : (65234123456789012 : ℚ) / 10 ^ 12 * 2 ^ 37 - (8965709658564328 : ℤ) > 1 / 2 := by
      norm_num
    unfold roundHalfEven
    rw [hfl2, if_neg (by exact_mod_cast hlt), if_pos (by exact_mod_cast hgt)]
    norm_num
  unfold float64OfRat
  rw [if_neg hx1, hfl, show Int.toNat 65234 = 65234 from rfl, hlog,
    if_pos (by norm_num : (15 : ℕ) ≤ 52), show (52 - 15 : ℕ) = 37 from rfl]
  simp only [hround]
  norm_num

/-- Evaluation helper: the 12-decimal fixed-point rendering of that binary64
value rounds its 12th decimal up to ...013. -/
theorem btc_price_format12_eval :
    format12f ((8965709658564329 : ℚ) / 2 ^ 37) = "65234.123456789013" := by
  have hfl : (⌊(8965709658564329 : ℚ) / 2 ^ 37 * 10 ^ 12⌋ : ℤ) = 65234123456789013 := by
    norm_num
  have hlt : (8965709658564329 : ℚ) / 2 ^ 37 * 10 ^ 12 - (65234123456789013 : ℤ) < 1 / 2 := by
    norm_num
  have hround : roundHalfEven ((8965709658564329 : ℚ) / 2 ^ 37 * 10 ^ 12) = 65234123456789013 := by
    unfold roundHalfEven
    rw [hfl, if_pos (by exact_mod_cast hlt)]
  unfold format12f
  simp only [hround]
  norm_num
  rfl

/-- C8 counterexample: the publish mapping built from
{"BTC-FEUSD": 65234.123456789012} (whose stored double is
float64OfRat (65234123456789012/10^12)) does NOT serialize to the string
"65234.123456789012": the 12th decimal place is already lost when the decimal
literal is stored as a binary64 float. -/
theorem twelve_dp_round_trip_counterexample :
    buildPriceMapForDex "btcx" [("BTC-FEUSD", float64OfRat ((65234123456789012 : ℚ) / 10 ^ 12))] ≠
      [("btcx:BTC-FEUSD", "65234.123456789012")] := by
  rw [show buildPriceMapForDex "btcx"
        [("BTC-FEUSD", float64OfRat ((65234123456789012 : ℚ) / 10 ^ 12))] =
      [("btcx:BTC-FEUSD", format12f (float64OfRat ((65234123456789012 : ℚ) / 10 ^ 12)))] from rfl,
    btc_price_float64_eval, btc_price_format12_eval]
  decide

/-- C8 (amended): every publish mapping serializes each price with 12 decimal
places under the namespace-qualified key "<namespace>:<coin>"; the map built
from {"BTC-FEUSD": 65234.123456789012} yields the key "btcx:BTC-FEUSD" with
the value "65234.123456789013" — the 12-decimal rendering of the nearest
binary64 to the decimal literal, whose 12th decimal place is one unit higher
than the literal. -/
theorem twelve_dp_serialization :
    (∀ (dex : String) (l : List (String × ℚ)),
      (buildPriceMapForDex dex l).map Prod.fst = l.map fun p => dex ++ ":" ++ p.1) ∧
    buildPriceMapForDex "btcx" [("BTC-FEUSD", float64OfRat ((65234123456789012 : ℚ) / 10 ^ 12))] =
      [("btcx:BTC-FEUSD", "65234.123456789013")] := by
  constructor
  · intro dex l
    simp only [buildPriceMapForDex, List.map_map]
    rfl
  · rw [show buildPriceMapForDex "btcx"
          [("BTC-FEUSD", float64OfRat ((65234123456789012 : ℚ) / 10 ^ 12))] =
        [("btcx:BTC-FEUSD", format12f (float64OfRat ((65234123456789012 : ℚ) / 10 ^ 12)))] from rfl,
      btc_price_float64_eval, btc_price_format12_eval]
